import Mathlib

/-!
Verification development for a repository with two small Python utilities:
a bidirectional CSV/JSON converter (csv_json_conversion.py) and a transcript
term GPA aggregator (gpacalculator.py).  Every definition below is a shallow
embedding translated from the source; machine floats are modelled as
rationals, file handles as explicit values, and the console as a list of
scripted responses.
-/

namespace Conv

/-- A scalar JSON value as produced by the Python json module for the
inputs this tool handles.  Python floats are not modelled; the claims under
study only need null, booleans, integers and strings. -/
inductive JVal where
  | null : JVal
  | bool (b : Bool) : JVal
  | int (n : Int) : JVal
  | str (s : String) : JVal
deriving DecidableEq, Repr

/-- One element of a top-level JSON list: either an object (a Python dict,
modelled as an association list in key insertion order) or a non-object
value. -/
inductive JItem where
  | obj (r : List (String × JVal)) : JItem
  | nonObj (v : JVal) : JItem
deriving DecidableEq, Repr

/-- The root of a loaded JSON document. -/
inductive JRoot where
  | obj (r : List (String × JVal)) : JRoot
  | arr (xs : List JItem) : JRoot
  | other (v : JVal) : JRoot
deriving DecidableEq, Repr

/-- Exceptions that can escape json_to_csv: the explicit
ValueError raised for a bad root shape, and the AttributeError raised by
csv.DictWriter.writerows when handed a row that is not a dict. -/
inductive ConvErr where
  | formatError (msg : String) : ConvErr
  | attributeError : ConvErr
deriving DecidableEq, Repr

/-- Result of a conversion run: whether the empty-input warning was printed
and the grid of cells written to the output file (none when the function
returned before opening the output file). -/
structure ConvOut where
  warned : Bool
  written : Option (List (List String))
deriving DecidableEq, Repr

/-- Dict lookup on an association list: value of the first pair whose key
matches. -/
def getVal (r : List (String × α)) (k : String) : Option α :=
  (r.find? (fun p => p.1 == k)).map (fun p => p.2)

/-- How the csv writer renders a cell value: str() for non-strings, except
that None is written as the empty string. -/
def cellStr : JVal → String
  | JVal.null => ""
  | JVal.bool b => cond b "True" "False"
  | JVal.int n => toString n
  | JVal.str s => s

/-- Keys of one record in insertion order. -/
def keysOfRec (r : List (String × JVal)) : List String :=
  r.map (fun p => p.1)

/-- all_keys accumulation: the loop `for obj in data: if isinstance(obj, dict):
all_keys.update(obj.keys())`, with set membership modelled by later
deduplication. -/
def allKeys : List JItem → List String
  | [] => []
  | JItem.obj r :: rest => keysOfRec r ++ allKeys rest
  | JItem.nonObj _ :: rest => allKeys rest

/-- fieldnames = sorted(list(all_keys)): distinct keys in lexicographic
(code point) order. -/
def fieldnames (data : List JItem) : List String :=
  List.insertionSort (fun a b => a ≤ b) (allKeys data).dedup

/-- One output cell for record r and column k: the rendered value, or the
DictWriter restval (empty string) when the record lacks the key. -/
def cellOf (r : List (String × JVal)) (k : String) : String :=
  match getVal r k with
  | some v => cellStr v
  | none => ""

/-- One CSV data row for a record, in fieldnames order. -/
def rowOf (fns : List String) (r : List (String × JVal)) : List String :=
  fns.map (cellOf r)

/-- writer.writerows(data): each dict becomes a row; the first non-dict
raises AttributeError (it has no .keys method). -/
def writeRows (fns : List String) : List JItem → Except ConvErr (List (List String))
  | [] => Except.ok []
  | JItem.obj r :: rest =>
      (writeRows fns rest).map (fun rows => rowOf fns r :: rows)
  | JItem.nonObj _ :: _ => Except.error ConvErr.attributeError

/-- The part of json_to_csv after root normalization: return early with a
warning on an empty list, otherwise write the header row followed by one
row per record. -/
def json_to_csv_data (data : List JItem) : Except ConvErr ConvOut :=
  match data with
  | [] => Except.ok { warned := true, written := none }
  | _ =>
      let fns := fieldnames data
      (writeRows fns data).map (fun rows => { warned := false, written := some (fns :: rows) })

/-- json_to_csv after json.load: normalizes the root (a dict becomes a
one-element list, anything else that is not a list raises ValueError),
then runs the data phase. -/
def json_to_csv (root : JRoot) : Except ConvErr ConvOut :=
  match root with
  | JRoot.other _ =>
      Except.error (ConvErr.formatError "JSON must be a list of objects or a single object")
  | JRoot.obj r => json_to_csv_data [JItem.obj r]
  | JRoot.arr xs => json_to_csv_data xs

/-- Result of csv_to_json: the record list written to the output file as a
JSON array (the write is unconditional, hence wrote is always true). -/
structure CsvOut where
  records : List (List (String × String))
  wrote : Bool
deriving DecidableEq, Repr

/-- csv.DictReader semantics for one data row: zip the header with the
cells.  Rows written by json_to_csv always have exactly one cell per
column, so the restval/restkey padding paths are never reached. -/
def zipRec (header : List String) (row : List String) : List (String × String) :=
  header.zip row

/-- Universal-newline translation of the text-mode read: csv_to_json opens
the input without newline='', so the stream rewrites every CRLF pair and
every lone CR to LF before the csv reader sees the text.  Quote characters
are untouched, so on a grid written by the csv writer the translation acts
cell by cell (row terminators are themselves newline sequences and still
delimit the same rows). -/
def univNewlines : List Char → List Char
  | [] => []
  | [c] => if c = '\r' then ['\n'] else [c]
  | a :: b :: rest =>
      if a = '\r' then
        if b = '\n' then '\n' :: univNewlines rest
        else '\n' :: univNewlines (b :: rest)
      else a :: univNewlines (b :: rest)

/-- Universal-newline translation on one cell string. -/
def univNewlinesStr (s : String) : String :=
  String.mk (univNewlines s.data)

/-- csv_to_json after opening the input: the text-mode read applies the
universal-newline translation to every cell, then DictReader takes the
first row as the header (blank data rows are skipped by the reader), every
remaining row becomes a record, and the record list is dumped to the
output file. -/
def csv_to_json (grid : List (List String)) : CsvOut :=
  match grid.map (fun row => row.map univNewlinesStr) with
  | [] => { records := [], wrote := true }
  | header :: rows =>
      { records := (rows.filter (fun r => !r.isEmpty)).map (zipRec header), wrote := true }

/-- Whether a list element is not a JSON object. -/
def isNonObj : JItem → Bool
  | JItem.obj _ => false
  | JItem.nonObj _ => true

/-- The full cell grid json_to_csv writes for a list of objects: header row
then one row per record. -/
def gridAll (records : List (List (String × JVal))) : List (List String) :=
  fieldnames (records.map JItem.obj) ::
    records.map (rowOf (fieldnames (records.map JItem.obj)))

end Conv

namespace Gpa

/-- The whitespace class of Python regular expressions and str.strip,
restricted to the ASCII range (the only non-ASCII whitespace the script
deals with, U+00A0, is replaced by a space before stripping). -/
def isPyWS (c : Char) : Bool :=
  c = ' ' || c = '\t' || c = '\n' || c = '\r' || c = '\x0b' || c = '\x0c'

/-- Case-insensitive literal match at the head of the input, as in an
IGNORECASE regex.  The pattern is given in lowercase; returns the rest of
the input on success. -/
def matchLit : List Char → List Char → Option (List Char)
  | [], cs => some cs
  | _ :: _, [] => none
  | p :: ps, c :: cs => if c.toLower = p then matchLit ps cs else none

/-- One-or-more whitespace: requires a leading whitespace character and
consumes the maximal run (no later element of these patterns can match a
whitespace character, so maximal munch is faithful). -/
def wsPlus : List Char → Option (List Char)
  | [] => none
  | c :: cs => if isPyWS c then some (cs.dropWhile isPyWS) else none

/-- The character class of the value capture groups: [\d\.,] in the ASCII
range. -/
def isNumClass (c : Char) : Bool :=
  c.isDigit || c = '.' || c = ','

/-- Match of GP_RE = Term\s+Grade\s+Points[:\s]*([\d\.,]+) anchored at the
head of the input; returns the captured group. -/
def gpAt (cs : List Char) : Option (List Char) :=
  (matchLit "term".data cs).bind (fun c1 =>
  (wsPlus c1).bind (fun c2 =>
  (matchLit "grade".data c2).bind (fun c3 =>
  (wsPlus c3).bind (fun c4 =>
  (matchLit "points".data c4).bind (fun c5 =>
    let c6 := c5.dropWhile (fun c => c = ':' || isPyWS c)
    let cap := c6.takeWhile isNumClass
    if cap.isEmpty then none else some cap)))))

/-- re.search for GP_RE: try every start position left to right. -/
def gpSearch : List Char → Option (List Char)
  | [] => none
  | c :: rest =>
      match gpAt (c :: rest) with
      | some cap => some cap
      | none => gpSearch rest

/-- Match of CR_RE = Term\s+GPA\s+Credits[:\s]*([\d\.,]+) anchored at the
head of the input; returns the captured group. -/
def crAt (cs : List Char) : Option (List Char) :=
  (matchLit "term".data cs).bind (fun c1 =>
  (wsPlus c1).bind (fun c2 =>
  (matchLit "gpa".data c2).bind (fun c3 =>
  (wsPlus c3).bind (fun c4 =>
  (matchLit "credits".data c4).bind (fun c5 =>
    let c6 := c5.dropWhile (fun c => c = ':' || isPyWS c)
    let cap := c6.takeWhile isNumClass
    if cap.isEmpty then none else some cap)))))

/-- re.search for CR_RE. -/
def crSearch : List Char → Option (List Char)
  | [] => none
  | c :: rest =>
      match crAt (c :: rest) with
      | some cap => some cap
      | none => crSearch rest

/-- The roman numeral class [IVXLC] of TERM_RE, case-insensitive. -/
def isRoman (c : Char) : Bool :=
  let l := c.toLower
  l = 'i' || l = 'v' || l = 'x' || l = 'l' || l = 'c'

/-- Exactly four digits, \d{4}; returns the rest of the input. -/
def digit4 : List Char → Option (List Char)
  | a :: b :: c :: d :: rest =>
      if a.isDigit && b.isDigit && c.isDigit && d.isDigit then some rest else none
  | _ => none

/-- The tail of TERM_RE after the season: \s*(?:Qtr|Quarter|Ses)?\s*\d{4}.
The three tokens are mutually exclusive on any input, so the regex
backtracking order reduces to: try the token branch, and on failure of its
continuation fall back to the empty branch. -/
def termTail (cs : List Char) : Option (List Char) :=
  let c1 := cs.dropWhile isPyWS
  let viaTok :=
    (match matchLit "qtr".data c1 with
     | some c2 => some c2
     | none =>
       match matchLit "quarter".data c1 with
       | some c2 => some c2
       | none => matchLit "ses".data c1).bind
      (fun c2 => digit4 (c2.dropWhile isPyWS))
  match viaTok with
  | some rest => some rest
  | none => digit4 c1

/-- The Sum\s+Ses\s+[IVXLC]+ season alternative, anchored at the head. -/
def sumSes (cs : List Char) : Option (List Char) :=
  (matchLit "sum".data cs).bind (fun c1 =>
  (wsPlus c1).bind (fun c2 =>
  (matchLit "ses".data c2).bind (fun c3 =>
  (wsPlus c3).bind (fun c4 =>
    let rom := c4.takeWhile isRoman
    if rom.isEmpty then none else some (c4.drop rom.length)))))

/-- One simple season alternative followed by the term tail. -/
def seasonThen (w : String) (cs : List Char) : Option (List Char) :=
  (matchLit w.data cs).bind termTail

/-- The capture group body of TERM_RE anchored at the head:
(Fall|Winter|Spring|Summer|Sum Ses roman)(tail).  Alternatives are tried in
the order of the pattern, each with its continuation, matching regex
backtracking.  Returns the rest after the captured text. -/
def termBody (cs : List Char) : Option (List Char) :=
  (seasonThen "fall" cs) <|> (seasonThen "winter" cs) <|> (seasonThen "spring" cs) <|>
  (seasonThen "summer" cs) <|> ((sumSes cs).bind termTail)

/-- The capture of TERM_RE group 1 when the body matches at the head of cs:
the consumed span. -/
def termCapture (cs : List Char) : Option (List Char) :=
  (termBody cs).map (fun rest => cs.take (cs.length - rest.length))

/-- TERM_RE anchored at one start position: the optional (?:Term:\s*)?
prefix is tried first (greedy), then the bare capture at the same
position. -/
def termAt (cs : List Char) : Option (List Char) :=
  match matchLit "term:".data cs with
  | some c1 =>
      match termCapture (c1.dropWhile isPyWS) with
      | some cap => some cap
      | none => termCapture cs
  | none => termCapture cs

/-- re.search for TERM_RE: leftmost start position wins. -/
def termSearch : List Char → Option (List Char)
  | [] => none
  | c :: rest =>
      match termAt (c :: rest) with
      | some cap => some cap
      | none => termSearch rest

/-- str.strip on a character list. -/
def pyStripL (cs : List Char) : List Char :=
  ((cs.dropWhile isPyWS).reverse.dropWhile isPyWS).reverse

/-- Squeeze runs of spaces to a single space (helper for the \s+ to one
space substitution; all whitespace has already been mapped to a space). -/
def squeeze : List Char → List Char
  | [] => []
  | [c] => [c]
  | a :: b :: rest =>
      if a = ' ' && b = ' ' then squeeze (b :: rest) else a :: squeeze (b :: rest)

/-- re.sub(\s+, one space, s): every maximal whitespace run becomes a
single space. -/
def collapseWS (cs : List Char) : List Char :=
  squeeze (cs.map (fun c => if isPyWS c then ' ' else c))

/-- Term label normalization applied to the TERM_RE capture:
re.sub(\s+, one space, capture.strip()). -/
def normLabel (cs : List Char) : String :=
  String.mk (collapseWS (pyStripL cs))

/-- TERM_RE search over a line plus label normalization, as in the parser
loop. -/
def termMatch (line : String) : Option String :=
  (termSearch line.data).map normLabel

/-- GP_RE search over a line, capture as a string. -/
def gpMatch (line : String) : Option String :=
  (gpSearch line.data).map String.mk

/-- CR_RE search over a line, capture as a string. -/
def crMatch (line : String) : Option String :=
  (crSearch line.data).map String.mk

/-- The line preprocessing of the parser loop:
raw.replace(nbsp, space).strip(). -/
def preprocessLine (raw : String) : String :=
  String.mk (pyStripL (raw.data.map (fun c => if c = '\xa0' then ' ' else c)))

/-- Decimal digit list value (most significant first). -/
def digitsVal (cs : List Char) : Nat :=
  cs.foldl (fun a c => a * 10 + (c.toNat - 48)) 0

/-- Python float() applied to a capture of [\d\.]+ after comma removal:
defined exactly when the text has at least one digit, at most one dot, and
only digits and dots; the value is exact (floats are modelled as
rationals). -/
def pyFloat (s : String) : Option ℚ :=
  let cs := s.data
  if cs.all (fun c => c.isDigit || c = '.') && cs.count '.' ≤ 1 && cs.any Char.isDigit then
    let ip := cs.takeWhile (fun c => c ≠ '.')
    let fp := cs.drop (ip.length + 1)
    some (mkRat (digitsVal ip * 10 ^ fp.length + digitsVal fp) (10 ^ fp.length))
  else none

/-- val.replace(comma, empty).strip() applied to a value capture. -/
def stripCommas (s : String) : String :=
  String.mk (pyStripL (s.data.filter (fun c => c ≠ ',')))

/-- One parsed term: the two optional numeric fields and the diagnostic
raw line log. -/
structure TermRec where
  grade_points : Option ℚ
  credits : Option ℚ
  raw_lines : List String
deriving DecidableEq, Repr

/-- The term store: a Python dict in insertion order, modelled as an
association list with distinct keys. -/
abbrev Store := List (String × TermRec)

/-- Keys of the store in insertion order. -/
def keysOf (T : Store) : List String :=
  T.map (fun p => p.1)

/-- Dict lookup: the value of the first entry with the given key. -/
def getTerm (T : Store) (t : String) : Option TermRec :=
  (T.find? (fun p => p.1 == t)).map (fun p => p.2)

/-- Dict item mutation terms[t] = f(terms[t]): rewrite the first entry with
the given key, leave everything else alone. -/
def setTerm (T : Store) (t : String) (f : TermRec → TermRec) : Store :=
  match T with
  | [] => []
  | (k, r) :: rest => if k == t then (k, f r) :: rest else (k, r) :: setTerm rest t f

/-- The grade points field of a term as seen through the store. -/
def termGp (T : Store) (t : String) : Option (Option ℚ) :=
  (getTerm T t).map (fun r => r.grade_points)

/-- The credits field of a term as seen through the store. -/
def termCr (T : Store) (t : String) : Option (Option ℚ) :=
  (getTerm T t).map (fun r => r.credits)

/-- The disambiguation while loop: suffix starts at 1 with the bare base
name, and increments until the candidate is not yet a key.  Fuel bounds the
iteration count; keys.length + 1 iterations always reach a fresh name
because the candidates are pairwise distinct. -/
def freshFrom (keys : List String) (base : String) : Nat → Nat → String → String
  | 0, _, name => name
  | fuel + 1, suffix, name =>
      if name ∈ keys then
        freshFrom keys base fuel (suffix + 1) (base ++ " (" ++ Nat.repr (suffix + 1) ++ ")")
      else name

/-- The disambiguated name chosen for a new term header. -/
def freshName (keys : List String) (base : String) : String :=
  freshFrom keys base (keys.length + 1) 1 base

/-- Parser state: the store built so far and the current term. -/
structure PState where
  terms : Store
  current : Option String
deriving DecidableEq

/-- One iteration of the parser loop of parse_terms_from_text: skip empty
raw lines; preprocess; on a TERM_RE match create a fresh store entry and
make it current (and do not scan the line for values); otherwise, while a
current term exists, apply the grade-points and credits value patterns
(a malformed number degrades to a warning and leaves the field alone) and
append the line to the raw line log. -/
def parse_step (st : PState) (raw : String) : PState :=
  if raw = "" then st
  else
    let line := preprocessLine raw
    match termMatch line with
    | some base =>
        let fresh := freshName (keysOf st.terms) base
        { terms := st.terms ++ [(fresh, ⟨none, none, []⟩)], current := some fresh }
    | none =>
        match st.current with
        | none => st
        | some t =>
            let T1 :=
              match gpMatch line with
              | none => st.terms
              | some v =>
                  match pyFloat (stripCommas v) with
                  | none => st.terms
                  | some q => setTerm st.terms t (fun r => { r with grade_points := some q })
            let T2 :=
              match crMatch line with
              | none => T1
              | some v =>
                  match pyFloat (stripCommas v) with
                  | none => T1
                  | some q => setTerm T1 t (fun r => { r with credits := some q })
            { terms := setTerm T2 t (fun r => { r with raw_lines := r.raw_lines ++ [line] }),
              current := some t }

/-- parse_terms_from_text over the lines of the input text
(text.splitlines()). -/
def parse_terms_from_text (lines : List String) : Store :=
  (lines.foldl parse_step { terms := [], current := none }).terms

/-- Whether a term record has both numeric fields. -/
def complete (r : TermRec) : Bool :=
  r.grade_points.isSome && r.credits.isSome

/-- The aggregation loop of compute_cumulative_gpa_for_term_list with its
three accumulators.  The terms dict is modelled as a total map from name to
record (every selected name is a key in the real program). -/
def computeAux (td : String → TermRec) : List String → ℚ → ℚ → List String → ℚ × ℚ × List String
  | [], gp, cr, sk => (gp, cr, sk)
  | t :: rest, gp, cr, sk =>
      match (td t).grade_points, (td t).credits with
      | some g, some c => computeAux td rest (gp + g) (cr + c) sk
      | some _, none => computeAux td rest gp cr (sk ++ [t])
      | none, _ => computeAux td rest gp cr (sk ++ [t])

/-- compute_cumulative_gpa_for_term_list: totals start at zero and the
skipped list starts empty. -/
def compute_cumulative_gpa_for_term_list (td : String → TermRec) (sel : List String) :
    ℚ × ℚ × List String :=
  computeAux td sel 0 0 []

/-- The GPA report at the end of main: total credits equal to zero is
reported as not computable, otherwise the quotient is computed. -/
def gpaReport (totalGp totalCr : ℚ) : Option ℚ :=
  if totalCr = 0 then none else some (totalGp / totalCr)

/-- One console response to a missing-value prompt: empty input, input that
float() rejects, or a parsed number. -/
inductive Resp where
  | blank : Resp
  | invalid : Resp
  | value (q : ℚ) : Resp
deriving DecidableEq

/-- The inner while loop of prompt_for_missing_in_range: blank input breaks
without a value, a valid number breaks with the value, invalid input prints
an error and repeats.  Returns the outcome and the unconsumed responses. -/
def askLoop : List Resp → Option ℚ × List Resp
  | [] => (none, [])
  | Resp.blank :: rest => (none, rest)
  | Resp.value q :: rest => (some q, rest)
  | Resp.invalid :: rest => askLoop rest

/-- Handling of a single field of a single selected term: prompt only if
the field is unset, and store the response value if one was given. -/
def promptOne (T : Store) (t : String)
    (get : TermRec → Option ℚ) (set : ℚ → TermRec → TermRec) (rs : List Resp) :
    Store × List Resp :=
  match (getTerm T t).bind get with
  | some _ => (T, rs)
  | none =>
      match askLoop rs with
      | (some q, rs2) => (setTerm T t (set q), rs2)
      | (none, rs2) => (T, rs2)

/-- Both fields of one selected term, grade points first as in the source
key tuple. -/
def promptTerm (T : Store) (t : String) (rs : List Resp) : Store × List Resp :=
  let s1 := promptOne T t (fun r => r.grade_points)
    (fun q r => { r with grade_points := some q }) rs
  promptOne s1.1 t (fun r => r.credits) (fun q r => { r with credits := some q }) s1.2

/-- prompt_for_missing_in_range over the selected terms. -/
def prompt_for_missing_in_range (T : Store) (sel : List String) (rs : List Resp) :
    Store × List Resp :=
  match sel with
  | [] => (T, rs)
  | t :: ts =>
      let s1 := promptTerm T t rs
      prompt_for_missing_in_range s1.1 ts s1.2

/-- The name the parser gives the j-th occurrence of a term label: the
bare label first, then the label with the numeric suffix. -/
def dupName (base : String) : Nat → String
  | 1 => base
  | j => base ++ " (" ++ Nat.repr j ++ ")"

/-- The store keys after n occurrences of the same label, in encounter
order. -/
def expectedKeys (base : String) (n : Nat) : List String :=
  (List.range n).map (fun i => dupName base (i + 1))

/-- The label the parser loop extracts from one raw line, none when the
line is skipped as empty or does not match TERM_RE. -/
def headerLabel (raw : String) : Option String :=
  if raw = "" then none else termMatch (preprocessLine raw)

/-- Big-endian decimal digit expansion, the reference form for proving
facts about Nat.repr. -/
def decDigits (n : Nat) : List Nat :=
  if _h : n < 10 then [n] else decDigits (n / 10) ++ [n % 10]
termination_by n
decreasing_by exact Nat.div_lt_self (by omega) (by omega)

end Gpa

open Conv Gpa

theorem writeRows_map_obj (fns : List String) (records : List (List (String × JVal))) :
    writeRows fns (records.map JItem.obj) = Except.ok (records.map (rowOf fns)) := by
  induction records with
  | nil => rfl
  | cons r rest ih => simp [writeRows, ih, Except.map]

theorem writeRows_nonObj (fns : List String) :
    ∀ xs : List JItem, (∃ x ∈ xs, isNonObj x = true) →
      writeRows fns xs = Except.error ConvErr.attributeError := by
  intro xs h
  induction xs with
  | nil => simp at h
  | cons x rest ih =>
      cases x with
      | nonObj v => rfl
      | obj r =>
          obtain ⟨y, hy, hni⟩ := h
          rcases List.mem_cons.mp hy with h1 | h2
          · subst h1; simp [isNonObj] at hni
          · rw [writeRows, ih ⟨y, h2, hni⟩]; rfl

theorem mem_allKeys (k : String) (records : List (List (String × JVal))) :
    k ∈ allKeys (records.map JItem.obj) ↔ ∃ r ∈ records, k ∈ keysOfRec r := by
  induction records with
  | nil => simp [allKeys]
  | cons r rest ih => simp [allKeys, List.mem_append, ih]

theorem mem_fieldnames (k : String) (records : List (List (String × JVal))) :
    k ∈ fieldnames (records.map JItem.obj) ↔ ∃ r ∈ records, k ∈ keysOfRec r := by
  rw [fieldnames]
  rw [List.mem_insertionSort, List.mem_dedup]
  exact mem_allKeys k records

theorem sorted_fieldnames (data : List JItem) :
    List.Sorted (fun a b : String => a ≤ b) (fieldnames data) :=
  List.sorted_insertionSort _ _

theorem nodup_fieldnames (data : List JItem) : (fieldnames data).Nodup :=
  (List.perm_insertionSort _ _).nodup_iff.mpr (List.nodup_dedup _)

/-- C8: a JSON root that is an empty list makes json_to_csv print the
empty-input warning and return before any output file is created or
written. -/
theorem C8_empty_list_no_write :
    json_to_csv (JRoot.arr []) = Except.ok { warned := true, written := none } := rfl

/-- C10: csv_to_json on a header-only CSV, and on a CSV with no rows at
all, succeeds with zero records and still writes the (empty) JSON array to
the output file, with no warning path; json_to_csv by contrast writes
nothing for an empty list. -/
theorem C10_csv_to_json_empty_inputs :
    (∀ header : List String, csv_to_json [header] = { records := [], wrote := true }) ∧
    csv_to_json [] = { records := [], wrote := true } ∧
    json_to_csv (JRoot.arr []) = Except.ok { warned := true, written := none } :=
  ⟨fun _ => rfl, rfl, rfl⟩

/-- C2 counterexample: a list root containing a non-object element is not
rejected with the FormatError message; the row-writing phase raises an
AttributeError instead. -/
theorem C2_list_validation_counterexample :
    json_to_csv (JRoot.arr [JItem.nonObj (JVal.int 5)]) =
      Except.error ConvErr.attributeError ∧
    json_to_csv (JRoot.arr [JItem.nonObj (JVal.int 5)]) ≠
      Except.error (ConvErr.formatError "JSON must be a list of objects or a single object") := by
  refine ⟨rfl, fun hcontra => ?_⟩
  rw [show json_to_csv (JRoot.arr [JItem.nonObj (JVal.int 5)]) =
        Except.error ConvErr.attributeError from rfl] at hcontra
  exact absurd (Except.error.inj hcontra) (by simp)

/-- C2 amended: a single-object root is treated as a one-record list and a
root that is neither object nor list fails with the FormatError message,
but a list root is accepted without element validation; a list containing a
non-object element fails later, during row writing, with an AttributeError
rather than the FormatError. -/
theorem C2_root_shape_handling :
    (∀ r, json_to_csv (JRoot.obj r) = json_to_csv (JRoot.arr [JItem.obj r])) ∧
    (∀ v, json_to_csv (JRoot.other v) =
      Except.error (ConvErr.formatError "JSON must be a list of objects or a single object")) ∧
    (∀ xs : List JItem, (∃ x ∈ xs, isNonObj x = true) →
      json_to_csv (JRoot.arr xs) = Except.error ConvErr.attributeError) := by
  refine ⟨fun r => rfl, fun v => rfl, fun xs h => ?_⟩
  cases xs with
  | nil => simp at h
  | cons x rest =>
      show json_to_csv_data (x :: rest) = Except.error ConvErr.attributeError
      have hw := writeRows_nonObj (fieldnames (x :: rest)) (x :: rest) h
      simp [json_to_csv_data, hw, Except.map]

/-- Witness for C2: a concrete list with one object and one null element
reaches the AttributeError. -/
theorem C2_root_shape_handling_witness :
    json_to_csv (JRoot.arr [JItem.obj [("a", JVal.int 1)], JItem.nonObj JVal.null]) =
      Except.error ConvErr.attributeError :=
  C2_root_shape_handling.2.2 _ ⟨JItem.nonObj JVal.null, by simp, rfl⟩

theorem json_to_csv_objs (records : List (List (String × JVal))) (hne : records ≠ []) :
    json_to_csv (JRoot.arr (records.map JItem.obj)) =
      Except.ok { warned := false, written := some (gridAll records) } := by
  cases records with
  | nil => exact absurd rfl hne
  | cons r rest =>
      show json_to_csv_data (JItem.obj r :: rest.map JItem.obj) = _
      have hw := writeRows_map_obj (fieldnames ((r :: rest).map JItem.obj)) (r :: rest)
      simp only [List.map_cons] at hw
      simp [json_to_csv_data, hw, Except.map, gridAll]

/-- C7: for a list of objects, the CSV column list is the
lexicographically sorted union of the keys of all records with no
duplicates, the written grid is one header row followed by exactly one row
per record in that field order, and a record without a key yields the
empty cell in that column. -/
theorem C7_columns_sorted_union (records : List (List (String × JVal))) (hne : records ≠ []) :
    json_to_csv (JRoot.arr (records.map JItem.obj)) =
      Except.ok { warned := false,
                  written := some (fieldnames (records.map JItem.obj) ::
                    records.map (rowOf (fieldnames (records.map JItem.obj)))) } ∧
    (∀ k, k ∈ fieldnames (records.map JItem.obj) ↔ ∃ r ∈ records, k ∈ keysOfRec r) ∧
    List.Sorted (fun a b : String => a ≤ b) (fieldnames (records.map JItem.obj)) ∧
    (fieldnames (records.map JItem.obj)).Nodup ∧
    (∀ (r : List (String × JVal)) k, getVal r k = none → cellOf r k = "") := by
  refine ⟨json_to_csv_objs records hne, fun k => mem_fieldnames k records,
    sorted_fieldnames _, nodup_fieldnames _, fun r k h => ?_⟩
  simp [cellOf, h]

/-- Witness for C7 at a concrete two-record list with disjoint keys. -/
theorem C7_columns_sorted_union_witness :
    json_to_csv (JRoot.arr ([[("b", JVal.int 2)], [("a", JVal.str "x")]].map JItem.obj)) =
      Except.ok { warned := false,
                  written := some
                    (fieldnames ([[("b", JVal.int 2)], [("a", JVal.str "x")]].map JItem.obj) ::
                      [[("b", JVal.int 2)], [("a", JVal.str "x")]].map
                        (rowOf (fieldnames ([[("b", JVal.int 2)],
                          [("a", JVal.str "x")]].map JItem.obj)))) } :=
  (C7_columns_sorted_union [[("b", JVal.int 2)], [("a", JVal.str "x")]]
    (List.cons_ne_nil _ _)).1

theorem getVal_cons (a : String) (b : α) (r : List (String × α)) (k : String) :
    getVal ((a, b) :: r) k = if a = k then some b else getVal r k := by
  by_cases h : a = k
  · simp [getVal, List.find?_cons_of_pos, h]
  · have : ¬ (((a, b) : String × α).1 == k) = true := by simp [h]
    simp [getVal, List.find?_cons_of_neg _ this, h]

theorem getVal_mem_keys {r : List (String × JVal)} {k : String} {v : JVal}
    (h : getVal r k = some v) : k ∈ keysOfRec r := by
  induction r with
  | nil => simp [getVal] at h
  | cons p rest ih =>
      obtain ⟨a, b⟩ := p
      rw [getVal_cons] at h
      by_cases hak : a = k
      · simp [keysOfRec, hak]
      · simp [hak] at h
        simp [keysOfRec]
        right
        have := ih h
        simpa [keysOfRec] using this

theorem getVal_zip_self (l : List String) (f : String → String) (k : String) (hk : k ∈ l) :
    getVal (l.zip (l.map f)) k = some (f k) := by
  induction l with
  | nil => simp at hk
  | cons a rest ih =>
      rw [List.map_cons, List.zip_cons_cons, getVal_cons]
      by_cases hak : a = k
      · simp [hak]
      · have : k ∈ rest := by
          rcases List.mem_cons.mp hk with h1 | h2
          · exact absurd h1.symm hak
          · exact h2
        simp [hak, ih this]

theorem univNewlines_no_cr (cs : List Char) (h : '\r' ∉ cs) : univNewlines cs = cs := by
  induction cs with
  | nil => rfl
  | cons c rest ih =>
      simp only [List.mem_cons, not_or] at h
      cases rest with
      | nil =>
          simp only [univNewlines]
          rw [if_neg (fun hc => h.1 hc.symm)]
      | cons b rest2 =>
          simp only [univNewlines]
          rw [if_neg (fun hc => h.1 hc.symm), ih h.2]

theorem univNewlinesStr_no_cr (s : String) (h : '\r' ∉ s.data) :
    univNewlinesStr s = s := by
  rw [univNewlinesStr, univNewlines_no_cr s.data h]

theorem map_eq_self_of_eq {l : List String} {f : String → String}
    (h : ∀ a ∈ l, f a = a) : l.map f = l := by
  induction l with
  | nil => rfl
  | cons a rest ih =>
      rw [List.map_cons, h a (List.mem_cons_self a rest),
        ih (fun b hb => h b (List.mem_cons_of_mem a hb))]

/-- C3 counterexample: a string value holding a carriage return is not
preserved by the round trip; the text-mode read of csv_to_json translates
it to a line feed, so the output cell differs from the text-equivalent
string of the original value. -/
theorem C3_round_trip_counterexample :
    (csv_to_json (gridAll [[("a", JVal.str "x\ry")]])).records = [[("a", "x\ny")]] ∧
    ("x\ny" : String) ≠ cellStr (JVal.str "x\ry") := by
  constructor
  · decide
  · decide

/-- C3 amended: for a non-empty list of objects whose keys hold no
carriage return, the round trip yields a record list in which every value
of every original record is preserved at the same position as the
universal-newline translation of its text-equivalent cell string (CR and
CRLF become LF, because the read side opens the file in text mode without
the newline argument); a value without carriage returns is therefore
preserved exactly. -/
theorem C3_round_trip (records : List (List (String × JVal))) (hne : records ≠ [])
    (hkeys : ∀ r ∈ records, ∀ k ∈ keysOfRec r, '\r' ∉ k.data) :
    json_to_csv (JRoot.arr (records.map JItem.obj)) =
      Except.ok { warned := false, written := some (gridAll records) } ∧
    ∀ i (hi : i < records.length) k v,
      getVal (records.get ⟨i, hi⟩) k = some v →
      ∃ hj : i < (csv_to_json (gridAll records)).records.length,
        getVal ((csv_to_json (gridAll records)).records.get ⟨i, hj⟩) k =
          some (univNewlinesStr (cellStr v)) := by
  refine ⟨json_to_csv_objs records hne, fun i hi k v hv => ?_⟩
  have hkmem : k ∈ fieldnames (records.map JItem.obj) := by
    rw [mem_fieldnames]
    exact ⟨records.get ⟨i, hi⟩, List.get_mem records i hi, getVal_mem_keys hv⟩
  have hfne : fieldnames (records.map JItem.obj) ≠ [] := List.ne_nil_of_mem hkmem
  have hfid : (fieldnames (records.map JItem.obj)).map univNewlinesStr =
      fieldnames (records.map JItem.obj) := by
    apply map_eq_self_of_eq
    intro a ha
    obtain ⟨r, hr, hkr⟩ := (mem_fieldnames a records).mp ha
    exact univNewlinesStr_no_cr a (hkeys r hr a hkr)
  have hrow : ∀ row ∈ records.map
      (fun r => (rowOf (fieldnames (records.map JItem.obj)) r).map univNewlinesStr),
      (!row.isEmpty) = true := by
    intro row hrow
    obtain ⟨r, _, hr⟩ := List.mem_map.mp hrow
    subst hr
    simp [rowOf, List.isEmpty_iff, List.map_eq_nil_iff, hfne]
  have hout : (csv_to_json (gridAll records)).records =
      records.map (fun r =>
        zipRec (fieldnames (records.map JItem.obj))
          ((rowOf (fieldnames (records.map JItem.obj)) r).map univNewlinesStr)) := by
    simp only [gridAll, csv_to_json, List.map_cons, List.map_map, Function.comp_def]
    rw [hfid]
    rw [List.filter_eq_self.mpr hrow, List.map_map]
    rfl
  have hlen : i < (csv_to_json (gridAll records)).records.length := by
    rw [hout, List.length_map]; exact hi
  refine ⟨hlen, ?_⟩
  have hget : (csv_to_json (gridAll records)).records.get ⟨i, hlen⟩ =
      zipRec (fieldnames (records.map JItem.obj))
        ((rowOf (fieldnames (records.map JItem.obj)) (records.get ⟨i, hi⟩)).map
          univNewlinesStr) := by
    have h1 := List.get_of_eq hout ⟨i, hlen⟩
    rw [h1]
    simp
  rw [hget, zipRec, rowOf, List.map_map]
  rw [getVal_zip_self _ (univNewlinesStr ∘ cellOf (records.get ⟨i, hi⟩)) _ hkmem]
  have hv2 := hv
  simp only [List.get_eq_getElem] at hv2
  simp [Function.comp, cellOf, hv2]

/-- Witness for C3 at a one-record list whose value holds a carriage
return, exercising the translation. -/
theorem C3_round_trip_witness :
    ∃ hj : 0 < (csv_to_json (gridAll [[("a", JVal.str "x\ry")]])).records.length,
      getVal ((csv_to_json (gridAll [[("a", JVal.str "x\ry")]])).records.get ⟨0, hj⟩)
        "a" = some (univNewlinesStr (cellStr (JVal.str "x\ry"))) :=
  (C3_round_trip [[("a", JVal.str "x\ry")]] (List.cons_ne_nil _ _) (by decide)).2 0
    (by decide) "a" (JVal.str "x\ry") rfl

theorem computeAux_spec (td : String → TermRec) :
    ∀ (sel : List String) (gp cr : ℚ) (sk : List String),
      computeAux td sel gp cr sk =
        (gp + ((sel.filter (fun t => complete (td t))).map
            (fun t => ((td t).grade_points).getD 0)).sum,
         cr + ((sel.filter (fun t => complete (td t))).map
            (fun t => ((td t).credits).getD 0)).sum,
         sk ++ sel.filter (fun t => !complete (td t))) := by
  intro sel
  induction sel with
  | nil => intro gp cr sk; simp [computeAux]
  | cons t rest ih =>
      intro gp cr sk
      cases hgp : (td t).grade_points with
      | none =>
          simp only [computeAux, hgp]
          rw [ih]
          simp [complete, hgp, List.append_assoc]
      | some g =>
          cases hcr : (td t).credits with
          | none =>
              simp only [computeAux, hgp, hcr]
              rw [ih]
              simp [complete, hgp, hcr, List.append_assoc]
          | some c =>
              simp only [computeAux, hgp, hcr]
              rw [ih]
              simp only [complete, hgp, hcr, Option.isSome_some, Bool.and_self,
                List.filter_cons_of_pos, List.map_cons, List.sum_cons, Option.getD_some,
                Bool.not_true, List.filter_cons_of_neg, Prod.mk.injEq]
              refine ⟨by ring, by ring, ?_⟩
              simp [complete, hgp, hcr]

/-- C4: the aggregator sums grade points and credits independently over
the selected terms, a selected term with either field unset contributes to
neither total and lands in the skipped list, and the returned value is the
triple of both totals and the skipped list; in particular the selection
A(gp 10, cr 4), B(gp missing, cr 5) yields totals 10 and 4 with B
skipped. -/
theorem C4_aggregation :
    (∀ (td : String → TermRec) (sel : List String),
      compute_cumulative_gpa_for_term_list td sel =
        (((sel.filter (fun t => complete (td t))).map
            (fun t => ((td t).grade_points).getD 0)).sum,
         ((sel.filter (fun t => complete (td t))).map
            (fun t => ((td t).credits).getD 0)).sum,
         sel.filter (fun t => !complete (td t)))) ∧
    compute_cumulative_gpa_for_term_list
      (fun s => if s = "A" then ⟨some 10, some 4, []⟩
                else if s = "B" then ⟨none, some 5, []⟩ else ⟨none, none, []⟩)
      ["A", "B"] = (10, 4, ["B"]) := by
  constructor
  · intro td sel
    rw [compute_cumulative_gpa_for_term_list, computeAux_spec]
    simp
  · norm_num [compute_cumulative_gpa_for_term_list, computeAux]
    simp

/-- C5: when total credits are positive the reported GPA is exactly the
quotient of the totals, and when total credits are zero the report is the
undefined marker and the quotient branch is never taken. -/
theorem C5_gpa_guard (gp cr : ℚ) :
    (0 < cr → gpaReport gp cr = some (gp / cr)) ∧ (cr = 0 → gpaReport gp cr = none) := by
  constructor
  · intro h
    rw [gpaReport, if_neg (ne_of_gt h)]
  · intro h
    rw [gpaReport, if_pos h]

/-- Witness for C5 at concrete totals. -/
theorem C5_gpa_guard_witness :
    gpaReport 10 4 = some (10 / 4) ∧ gpaReport 3 0 = none :=
  ⟨(C5_gpa_guard 10 4).1 (by norm_num), (C5_gpa_guard 3 0).2 rfl⟩

theorem getTerm_cons (k : String) (r : TermRec) (rest : Store) (t : String) :
    getTerm ((k, r) :: rest) t = if k = t then some r else getTerm rest t := by
  by_cases h : k = t
  · simp [getTerm, List.find?_cons_of_pos, h]
  · have : ¬ (((k, r) : String × TermRec).1 == t) = true := by simp [h]
    simp [getTerm, List.find?_cons_of_neg _ this, h]

theorem getTerm_setTerm (T : Store) (u t : String) (f : TermRec → TermRec) :
    getTerm (setTerm T u f) t = if u = t then (getTerm T t).map f else getTerm T t := by
  induction T with
  | nil =>
      simp only [setTerm, getTerm, List.find?_nil, Option.map_none']
      split <;> rfl
  | cons p rest ih =>
      obtain ⟨k, r⟩ := p
      rw [setTerm]
      by_cases hku : k = u
      · subst hku
        rw [if_pos (by simp)]
        rw [getTerm_cons, getTerm_cons]
        by_cases hkt : k = t
        · simp [hkt]
        · simp [hkt]
      · rw [if_neg (by simp [hku])]
        rw [getTerm_cons, getTerm_cons, ih]
        by_cases hkt : k = t
        · simp [hkt, show ¬ u = t from fun h => hku (by rw [h, hkt])]
        · simp [hkt]

theorem keysOf_setTerm (T : Store) (u : String) (f : TermRec → TermRec) :
    keysOf (setTerm T u f) = keysOf T := by
  induction T with
  | nil => rfl
  | cons p rest ih =>
      obtain ⟨k, r⟩ := p
      rw [setTerm]
      by_cases hku : k = u
      · rw [if_pos (by simp [hku])]; rfl
      · rw [if_neg (by simp [hku])]
        simp [keysOf] at ih ⊢
        exact ih

theorem promptOne_frame (T : Store) (u t : String) (get : TermRec → Option ℚ)
    (set : ℚ → TermRec → TermRec) (rs : List Resp) (h : u ≠ t) :
    getTerm (promptOne T u get set rs).1 t = getTerm T t := by
  rw [promptOne]
  split
  · rfl
  · split
    · simp [getTerm_setTerm, h]
    · rfl

theorem termGp_promptOne_cr (T : Store) (u t : String) (rs : List Resp) :
    termGp (promptOne T u (fun r => r.credits)
      (fun q r => { r with credits := some q }) rs).1 t = termGp T t := by
  rw [promptOne]
  split
  · rfl
  · split
    · rw [termGp, termGp, getTerm_setTerm]
      by_cases hut : u = t
      · rw [if_pos hut]
        cases getTerm T t <;> simp
      · rw [if_neg hut]
    · rfl

theorem termCr_promptOne_gp (T : Store) (u t : String) (rs : List Resp) :
    termCr (promptOne T u (fun r => r.grade_points)
      (fun q r => { r with grade_points := some q }) rs).1 t = termCr T t := by
  rw [promptOne]
  split
  · rfl
  · split
    · rw [termCr, termCr, getTerm_setTerm]
      by_cases hut : u = t
      · rw [if_pos hut]
        cases getTerm T t <;> simp
      · rw [if_neg hut]
    · rfl

theorem termGp_promptOne_gp (T : Store) (u t : String) (rs : List Resp) (v : ℚ)
    (h : termGp T t = some (some v)) :
    termGp (promptOne T u (fun r => r.grade_points)
      (fun q r => { r with grade_points := some q }) rs).1 t = some (some v) := by
  by_cases hut : u = t
  · subst hut
    have hbind : (getTerm T u).bind (fun r => r.grade_points) = some v := by
      cases hT : getTerm T u with
      | none => rw [termGp, hT] at h; simp at h
      | some r =>
          rw [termGp, hT] at h
          simp at h
          simp [h]
    rw [promptOne, hbind]
    exact h
  · rw [termGp, promptOne_frame T u t _ _ rs hut]
    exact h

theorem termCr_promptOne_cr (T : Store) (u t : String) (rs : List Resp) (v : ℚ)
    (h : termCr T t = some (some v)) :
    termCr (promptOne T u (fun r => r.credits)
      (fun q r => { r with credits := some q }) rs).1 t = some (some v) := by
  by_cases hut : u = t
  · subst hut
    have hbind : (getTerm T u).bind (fun r => r.credits) = some v := by
      cases hT : getTerm T u with
      | none => rw [termCr, hT] at h; simp at h
      | some r =>
          rw [termCr, hT] at h
          simp at h
          simp [h]
    rw [promptOne, hbind]
    exact h
  · rw [termCr, promptOne_frame T u t _ _ rs hut]
    exact h

theorem promptTerm_frame (T : Store) (u t : String) (rs : List Resp) (h : u ≠ t) :
    getTerm (promptTerm T u rs).1 t = getTerm T t := by
  rw [promptTerm]
  rw [promptOne_frame _ u t _ _ _ h, promptOne_frame _ u t _ _ _ h]

theorem termGp_promptTerm (T : Store) (u t : String) (rs : List Resp) (v : ℚ)
    (h : termGp T t = some (some v)) :
    termGp (promptTerm T u rs).1 t = some (some v) := by
  rw [promptTerm]
  rw [termGp_promptOne_cr]
  exact termGp_promptOne_gp T u t rs v h

theorem termCr_promptTerm (T : Store) (u t : String) (rs : List Resp) (v : ℚ)
    (h : termCr T t = some (some v)) :
    termCr (promptTerm T u rs).1 t = some (some v) := by
  rw [promptTerm]
  apply termCr_promptOne_cr
  rw [termCr_promptOne_gp]
  exact h

theorem prompt_frame : ∀ (sel : List String) (T : Store) (rs : List Resp) (t : String),
    t ∉ sel → getTerm (prompt_for_missing_in_range T sel rs).1 t = getTerm T t := by
  intro sel
  induction sel with
  | nil => intro T rs t _; rfl
  | cons u ts ih =>
      intro T rs t ht
      rw [prompt_for_missing_in_range]
      rw [ih _ _ _ (fun hmem => ht (List.mem_cons_of_mem u hmem))]
      exact promptTerm_frame T u t rs (fun h => ht (h ▸ List.mem_cons_self u ts))

theorem prompt_gp_preserved : ∀ (sel : List String) (T : Store) (rs : List Resp)
    (t : String) (v : ℚ), termGp T t = some (some v) →
    termGp (prompt_for_missing_in_range T sel rs).1 t = some (some v) := by
  intro sel
  induction sel with
  | nil => intro T rs t v h; exact h
  | cons u ts ih =>
      intro T rs t v h
      rw [prompt_for_missing_in_range]
      exact ih _ _ _ _ (termGp_promptTerm T u t rs v h)

theorem prompt_cr_preserved : ∀ (sel : List String) (T : Store) (rs : List Resp)
    (t : String) (v : ℚ), termCr T t = some (some v) →
    termCr (prompt_for_missing_in_range T sel rs).1 t = some (some v) := by
  intro sel
  induction sel with
  | nil => intro T rs t v h; exact h
  | cons u ts ih =>
      intro T rs t v h
      rw [prompt_for_missing_in_range]
      exact ih _ _ _ _ (termCr_promptTerm T u t rs v h)

/-- C9: the missing-value prompting step never touches a term outside the
selected range, never changes a field that is already set, leaves a field
unset on a blank response, repeats the prompt on an invalid response, and
stores a valid number on the term. -/
theorem C9_prompt_effects :
    (∀ (T : Store) (sel : List String) (rs : List Resp) (t : String), t ∉ sel →
      getTerm (prompt_for_missing_in_range T sel rs).1 t = getTerm T t) ∧
    (∀ (T : Store) (sel : List String) (rs : List Resp) (t : String) (v : ℚ),
      termGp T t = some (some v) →
      termGp (prompt_for_missing_in_range T sel rs).1 t = some (some v)) ∧
    (∀ (T : Store) (sel : List String) (rs : List Resp) (t : String) (v : ℚ),
      termCr T t = some (some v) →
      termCr (prompt_for_missing_in_range T sel rs).1 t = some (some v)) ∧
    (∀ rest : List Resp, askLoop (Resp.blank :: rest) = (none, rest)) ∧
    (∀ rest : List Resp, askLoop (Resp.invalid :: rest) = askLoop rest) ∧
    (∀ (q : ℚ) (rest : List Resp), askLoop (Resp.value q :: rest) = (some q, rest)) ∧
    (∀ (T : Store) (t : String) (r : TermRec) (q : ℚ) (rs : List Resp),
      getTerm T t = some r → r.grade_points = none →
      termGp (prompt_for_missing_in_range T [t] (Resp.value q :: rs)).1 t =
        some (some q)) := by
  refine ⟨fun T sel rs t h => prompt_frame sel T rs t h,
    fun T sel rs t v h => prompt_gp_preserved sel T rs t v h,
    fun T sel rs t v h => prompt_cr_preserved sel T rs t v h,
    fun rest => rfl, fun rest => rfl, fun q rest => rfl,
    fun T t r q rs hget hgp => ?_⟩
  rw [prompt_for_missing_in_range, prompt_for_missing_in_range]
  rw [promptTerm]
  rw [termGp_promptOne_cr]
  have hbind : (getTerm T t).bind (fun x => x.grade_points) = none := by
    rw [hget]
    simpa using hgp
  rw [promptOne, hbind]
  show termGp (setTerm T t _) t = some (some q)
  rw [termGp, getTerm_setTerm, if_pos rfl, hget]
  rfl

/-- Witness for C9: a term outside the range is untouched, and a missing
grade points field of a selected term is filled from a valid response. -/
theorem C9_prompt_effects_witness :
    getTerm (prompt_for_missing_in_range [("A", ⟨some 10, some 4, []⟩)] ["B"] []).1 "A" =
      getTerm [("A", ⟨some 10, some 4, []⟩)] "A" ∧
    termGp (prompt_for_missing_in_range [("B", ⟨none, some 5, []⟩)] ["B"]
      [Resp.value 7]).1 "B" = some (some 7) :=
  ⟨C9_prompt_effects.1 _ _ _ _ (by simp),
   C9_prompt_effects.2.2.2.2.2.2 _ _ ⟨none, some 5, []⟩ 7 [] rfl rfl⟩

theorem getTerm_isSome_of_mem_keys (T : Store) (t : String) (h : t ∈ keysOf T) :
    ∃ r, getTerm T t = some r := by
  induction T with
  | nil => simp [keysOf] at h
  | cons p rest ih =>
      obtain ⟨k, r⟩ := p
      rw [getTerm_cons]
      by_cases hkt : k = t
      · exact ⟨r, by rw [if_pos hkt]⟩
      · rw [if_neg hkt]
        apply ih
        simp [keysOf] at h ⊢
        rcases h with h1 | h2
        · exact absurd h1.symm hkt
        · exact h2

theorem termGp_setTerm_invariant (T : Store) (u t : String) (f : TermRec → TermRec)
    (hf : ∀ r, (f r).grade_points = r.grade_points) :
    termGp (setTerm T u f) t = termGp T t := by
  rw [termGp, termGp, getTerm_setTerm]
  by_cases hut : u = t
  · rw [if_pos hut]
    cases getTerm T t <;> simp [hf]
  · rw [if_neg hut]

/-- C1 counterexample: a term whose grade points line appears twice ends
with the value of the second line, not the first, so the first match does
not win. -/
theorem C1_first_match_counterexample :
    termGp (parse_terms_from_text
      ["Term: Fall Qtr 2025", "Term Grade Points: 10", "Term Grade Points: 20"])
      "Fall Qtr 2025" = some (some 20) ∧
    termGp (parse_terms_from_text
      ["Term: Fall Qtr 2025", "Term Grade Points: 10", "Term Grade Points: 20"])
      "Fall Qtr 2025" ≠ some (some 10) := by
  constructor
  · decide
  · decide

theorem termCr_setTerm_invariant (T : Store) (u t : String) (f : TermRec → TermRec)
    (hf : ∀ r, (f r).credits = r.credits) :
    termCr (setTerm T u f) t = termCr T t := by
  rw [termCr, termCr, getTerm_setTerm]
  by_cases hut : u = t
  · rw [if_pos hut]
    cases getTerm T t <;> simp [hf]
  · rw [if_neg hut]

theorem termCr_setTerm_set (T : Store) (t : String) (c : ℚ) (r : TermRec)
    (hr : getTerm T t = some r) :
    termCr (setTerm T t (fun x => { x with credits := some c })) t = some (some c) := by
  rw [termCr, getTerm_setTerm, if_pos rfl, hr]
  rfl

/-- C1 amended: a matching value line always overwrites the matched field
of the current term, whatever the field held before - the last match wins
per field.  The first conjunct states it for a grade points line (GP_RE),
the second for a credits line (CR_RE): any processed line that is not a
term header and matches the pattern with a parseable number leaves the
current term holding exactly that number in the corresponding field. -/
theorem C1_last_match_wins :
    (∀ (st : PState) (t raw v : String) (q : ℚ),
      raw ≠ "" → termMatch (preprocessLine raw) = none →
      st.current = some t → t ∈ keysOf st.terms →
      gpMatch (preprocessLine raw) = some v →
      pyFloat (stripCommas v) = some q →
      termGp (parse_step st raw).terms t = some (some q)) ∧
    (∀ (st : PState) (t raw w : String) (c : ℚ),
      raw ≠ "" → termMatch (preprocessLine raw) = none →
      st.current = some t → t ∈ keysOf st.terms →
      crMatch (preprocessLine raw) = some w →
      pyFloat (stripCommas w) = some c →
      termCr (parse_step st raw).terms t = some (some c)) := by
  constructor
  · intro st t raw v q hraw hterm hcur hmem hgp hq
    obtain ⟨r, hr⟩ := getTerm_isSome_of_mem_keys st.terms t hmem
    simp only [parse_step, if_neg hraw, hterm, hcur, hgp, hq]
    rw [termGp_setTerm_invariant _ t t
      (fun r => { r with raw_lines := r.raw_lines ++ [preprocessLine raw] }) (fun r => rfl)]
    have hT1 : termGp (setTerm st.terms t
        (fun r => { r with grade_points := some q })) t = some (some q) := by
      rw [termGp, getTerm_setTerm, if_pos rfl, hr]
      rfl
    cases hcr : crMatch (preprocessLine raw) with
    | none => exact hT1
    | some w =>
        cases hw : pyFloat (stripCommas w) with
        | none =>
            simp only [hw]
            exact hT1
        | some c =>
            simp only [hw]
            rw [termGp_setTerm_invariant _ t t
              (fun r => { r with credits := some c }) (fun r => rfl)]
            exact hT1
  · intro st t raw w c hraw hterm hcur hmem hcr hw
    obtain ⟨r, hr⟩ := getTerm_isSome_of_mem_keys st.terms t hmem
    simp only [parse_step, if_neg hraw, hterm, hcur, hcr, hw]
    rw [termCr_setTerm_invariant _ t t
      (fun r => { r with raw_lines := r.raw_lines ++ [preprocessLine raw] }) (fun r => rfl)]
    split
    · exact termCr_setTerm_set st.terms t c r hr
    · split
      · exact termCr_setTerm_set st.terms t c r hr
      · rename_i q hq2
        refine termCr_setTerm_set _ t c
          { r with grade_points := some q } ?_
        rw [getTerm_setTerm, if_pos rfl, hr]
        rfl

/-- Witness for C1: a term already holding grade points 10 is overwritten
to 20 by a later grade points line, and a term already holding credits 4
is overwritten to 6 by a later credits line. -/
theorem C1_last_match_wins_witness :
    termGp (parse_step
      { terms := [("Fall Qtr 2025", ⟨some 10, none, []⟩)],
        current := some "Fall Qtr 2025" }
      "Term Grade Points: 20").terms "Fall Qtr 2025" = some (some 20) ∧
    termCr (parse_step
      { terms := [("Fall Qtr 2025", ⟨none, some 4, []⟩)],
        current := some "Fall Qtr 2025" }
      "Term GPA Credits: 6").terms "Fall Qtr 2025" = some (some 6) :=
  ⟨C1_last_match_wins.1
    { terms := [("Fall Qtr 2025", ⟨some 10, none, []⟩)], current := some "Fall Qtr 2025" }
    "Fall Qtr 2025" "Term Grade Points: 20" "20" 20
    (by decide) (by decide) rfl (by decide) (by decide) (by decide),
   C1_last_match_wins.2
    { terms := [("Fall Qtr 2025", ⟨none, some 4, []⟩)], current := some "Fall Qtr 2025" }
    "Fall Qtr 2025" "Term GPA Credits: 6" "6" 6
    (by decide) (by decide) rfl (by decide) (by decide) (by decide)⟩

theorem decDigits_lt (n : Nat) (h : n < 10) : decDigits n = [n] := by
  rw [decDigits]
  simp [h]

theorem decDigits_ge (n : Nat) (h : ¬ n < 10) : decDigits n = decDigits (n / 10) ++ [n % 10] := by
  rw [decDigits]
  simp [h]

theorem decDigits_ne_nil (n : Nat) : decDigits n ≠ [] := by
  by_cases h : n < 10
  · rw [decDigits_lt n h]; simp
  · rw [decDigits_ge n h]; simp

theorem toDigitsCore_eq_decDigits (fuel : Nat) :
    ∀ (n : Nat) (acc : List Char), n < fuel →
      Nat.toDigitsCore 10 fuel n acc = (decDigits n).map Nat.digitChar ++ acc := by
  induction fuel with
  | zero => intro n acc h; omega
  | succ f ih =>
      intro n acc h
      rw [Nat.toDigitsCore]
      by_cases h0 : n / 10 = 0
      · have hn : n < 10 := by omega
        rw [if_pos h0, decDigits_lt n hn]
        simp [Nat.mod_eq_of_lt hn]
      · have hn : ¬ n < 10 := by
          intro hlt
          exact h0 (Nat.div_eq_of_lt hlt)
        rw [if_neg h0]
        have hdivf : n / 10 < f := by
          have h1 : n / 10 < n := Nat.div_lt_self (by omega) (by omega)
          omega
        rw [ih (n / 10) _ hdivf, decDigits_ge n hn]
        simp [List.map_append, List.append_assoc]

theorem repr_data_eq (n : Nat) : (Nat.repr n).data = (decDigits n).map Nat.digitChar := by
  rw [Nat.repr, Nat.toDigits, toDigitsCore_eq_decDigits (n + 1) n [] (by omega)]
  simp [List.asString]

theorem digitChar_inj_lt (a b : Nat) (ha : a < 10) (hb : b < 10)
    (h : Nat.digitChar a = Nat.digitChar b) : a = b := by
  interval_cases a <;> interval_cases b <;> revert h <;> decide

theorem decDigits_map_inj (m : Nat) :
    ∀ n : Nat, (decDigits m).map Nat.digitChar = (decDigits n).map Nat.digitChar → m = n := by
  induction m using Nat.strong_induction_on with
  | _ m ih =>
      intro n h
      by_cases hm : m < 10
      · by_cases hn : n < 10
        · rw [decDigits_lt m hm, decDigits_lt n hn] at h
          simp at h
          exact digitChar_inj_lt m n hm hn h
        · rw [decDigits_lt m hm, decDigits_ge n hn] at h
          have hl := congrArg List.length h
          cases hdd : decDigits (n / 10) with
          | nil => exact absurd hdd (decDigits_ne_nil _)
          | cons a l =>
              rw [hdd] at hl
              simp at hl
      · by_cases hn : n < 10
        · rw [decDigits_ge m hm, decDigits_lt n hn] at h
          have hl := congrArg List.length h
          cases hdd : decDigits (m / 10) with
          | nil => exact absurd hdd (decDigits_ne_nil _)
          | cons a l =>
              rw [hdd] at hl
              simp at hl
        · rw [decDigits_ge m hm, decDigits_ge n hn] at h
          simp only [List.map_append, List.map_cons, List.map_nil] at h
          have hrev := congrArg List.reverse h
          simp only [List.reverse_append, List.reverse_cons, List.reverse_nil,
            List.nil_append, List.cons_append, List.cons.injEq] at hrev
          obtain ⟨h1, h2⟩ := hrev
          have hmod : m % 10 = n % 10 :=
            digitChar_inj_lt _ _ (Nat.mod_lt _ (by omega)) (Nat.mod_lt _ (by omega)) h1
          have hdiv : m / 10 = n / 10 := by
            apply ih (m / 10) (Nat.div_lt_self (by omega) (by omega))
            exact List.reverse_injective h2
          omega

theorem nat_repr_inj (m n : Nat) (h : (Nat.repr m).data = (Nat.repr n).data) : m = n := by
  rw [repr_data_eq, repr_data_eq] at h
  exact decDigits_map_inj m n h

theorem dupName_one (X : String) : dupName X 1 = X := rfl

theorem dupName_ge2 (X : String) (a : Nat) (h : 2 ≤ a) :
    dupName X a = X ++ " (" ++ Nat.repr a ++ ")" := by
  obtain ⟨k, rfl⟩ : ∃ k, a = k + 2 := ⟨a - 2, by omega⟩
  rfl

theorem dupName_inj (X : String) (a b : Nat) (ha : 1 ≤ a) (hb : 1 ≤ b)
    (h : dupName X a = dupName X b) : a = b := by
  rcases Nat.lt_or_ge a 2 with ha2 | ha2
  · rcases Nat.lt_or_ge b 2 with hb2 | hb2
    · omega
    · exfalso
      have h1 : a = 1 := by omega
      subst h1
      rw [dupName_one, dupName_ge2 X b hb2] at h
      have hl := congrArg String.length h
      rw [String.length_append, String.length_append, String.length_append] at hl
      have l2 : (" (" : String).length = 2 := rfl
      have l1 : (")" : String).length = 1 := rfl
      omega
  · rcases Nat.lt_or_ge b 2 with hb2 | hb2
    · exfalso
      have h1 : b = 1 := by omega
      subst h1
      rw [dupName_one, dupName_ge2 X a ha2] at h
      have hl := congrArg String.length h
      rw [String.length_append, String.length_append, String.length_append] at hl
      have l2 : (" (" : String).length = 2 := rfl
      have l1 : (")" : String).length = 1 := rfl
      omega
    · rw [dupName_ge2 X a ha2, dupName_ge2 X b hb2] at h
      have hd := congrArg String.data h
      rw [String.data_append, String.data_append, String.data_append,
        String.data_append, String.data_append, String.data_append] at hd
      rw [List.append_assoc, List.append_assoc, List.append_assoc, List.append_assoc] at hd
      have h3 := List.append_cancel_left hd
      have h4 := List.append_cancel_left h3
      have h5 : (Nat.repr a).data = (Nat.repr b).data := List.append_cancel_right h4
      exact nat_repr_inj a b h5

theorem length_expectedKeys (X : String) (k : Nat) : (expectedKeys X k).length = k := by
  simp [expectedKeys]

theorem mem_expectedKeys_iff (X : String) (k j : Nat) (hj : 1 ≤ j) :
    dupName X j ∈ expectedKeys X k ↔ j ≤ k := by
  simp only [expectedKeys, List.mem_map, List.mem_range]
  constructor
  · rintro ⟨i, hik, hi⟩
    have := dupName_inj X (i + 1) j (by omega) hj hi
    omega
  · intro hjk
    refine ⟨j - 1, by omega, ?_⟩
    congr 1
    omega

theorem expectedKeys_succ (X : String) (k : Nat) :
    expectedKeys X (k + 1) = expectedKeys X k ++ [dupName X (k + 1)] := by
  simp [expectedKeys, List.range_succ]

theorem freshFrom_expected (X : String) (k : Nat) :
    ∀ (d s : Nat), s + d = k + 1 → 1 ≤ s →
      freshFrom (expectedKeys X k) X (d + 1) s (dupName X s) = dupName X (k + 1) := by
  intro d
  induction d with
  | zero =>
      intro s hs hs1
      have hsk : s = k + 1 := by omega
      subst hsk
      rw [freshFrom]
      rw [if_neg (fun hmem => by
        have := (mem_expectedKeys_iff X k (k + 1) (by omega)).mp hmem
        omega)]
  | succ d ih =>
      intro s hs hs1
      rw [freshFrom]
      rw [if_pos ((mem_expectedKeys_iff X k s hs1).mpr (by omega))]
      rw [show X ++ " (" ++ Nat.repr (s + 1) ++ ")" = dupName X (s + 1) from
        (dupName_ge2 X (s + 1) (by omega)).symm]
      exact ih (s + 1) (by omega) (by omega)

theorem freshName_expected (X : String) (k : Nat) :
    freshName (expectedKeys X k) X = dupName X (k + 1) := by
  rw [freshName, length_expectedKeys]
  exact freshFrom_expected X k k 1 (by omega) (by omega)

theorem keysOf_append (T1 T2 : Store) : keysOf (T1 ++ T2) = keysOf T1 ++ keysOf T2 := by
  simp [keysOf]

theorem keysOf_parse_step_none (st : PState) (raw : String) (h : headerLabel raw = none) :
    keysOf (parse_step st raw).terms = keysOf st.terms := by
  rw [headerLabel] at h
  by_cases hraw : raw = ""
  · rw [parse_step, if_pos hraw]
  · rw [if_neg hraw] at h
    simp only [parse_step, if_neg hraw, h]
    cases hcur : st.current with
    | none => rfl
    | some t =>
        rw [keysOf_setTerm]
        repeat' split
        all_goals first
        | rfl
        | simp [keysOf_setTerm]

theorem keysOf_parse_step_some (st : PState) (raw X : String)
    (h : headerLabel raw = some X) :
    keysOf (parse_step st raw).terms =
      keysOf st.terms ++ [freshName (keysOf st.terms) X] := by
  rw [headerLabel] at h
  by_cases hraw : raw = ""
  · rw [if_pos hraw] at h
    exact absurd h (by simp)
  · rw [if_neg hraw] at h
    simp only [parse_step, if_neg hraw, h]
    rw [keysOf_append]
    rfl

theorem parse_fold_keys (X : String) :
    ∀ (lines : List String) (st : PState) (k m : Nat),
      keysOf st.terms = expectedKeys X k →
      lines.filterMap headerLabel = List.replicate m X →
      keysOf ((lines.foldl parse_step st).terms) = expectedKeys X (k + m) := by
  intro lines
  induction lines with
  | nil =>
      intro st k m hk hm
      simp only [List.filterMap_nil] at hm
      have hm0 : m = 0 := by
        have hlen := congrArg List.length hm
        simp at hlen
        omega
      subst hm0
      simpa using hk
  | cons raw rest ih =>
      intro st k m hk hm
      rw [List.foldl_cons]
      cases hh : headerLabel raw with
      | none =>
          simp only [List.filterMap_cons, hh] at hm
          exact ih (parse_step st raw) k m (by rw [keysOf_parse_step_none st raw hh, hk]) hm
      | some Y =>
          simp only [List.filterMap_cons, hh] at hm
          cases m with
          | zero => simp [List.replicate] at hm
          | succ m2 =>
              rw [List.replicate_succ] at hm
              obtain ⟨hYX, hrest⟩ := List.cons.inj hm
              have hk2 : keysOf (parse_step st raw).terms = expectedKeys X (k + 1) := by
                rw [keysOf_parse_step_some st raw Y hh, hk, hYX, freshName_expected,
                  expectedKeys_succ]
              have hfin := ih (parse_step st raw) (k + 1) m2 hk2 hrest
              rw [show k + (m2 + 1) = k + 1 + m2 by omega]
              exact hfin

/-- C6: if the term header pattern matches n lines of the input and every
match normalizes to the same label, the parser creates n distinct store
entries, named with the bare label first and then the label with the
suffixes (2), (3), ..., in encounter order; duplicate headers are never
merged. -/
theorem C6_duplicate_labels (lines : List String) (X : String) (n : Nat)
    (h : lines.filterMap headerLabel = List.replicate n X) :
    keysOf (parse_terms_from_text lines) = expectedKeys X n ∧
    (keysOf (parse_terms_from_text lines)).Nodup := by
  have hmain : keysOf (parse_terms_from_text lines) = expectedKeys X n := by
    have := parse_fold_keys X lines { terms := [], current := none } 0 n
      (by simp [expectedKeys, keysOf]) h
    simpa [parse_terms_from_text] using this
  refine ⟨hmain, ?_⟩
  rw [hmain]
  exact List.Nodup.map
    (fun i j hij => by
      have := dupName_inj X (i + 1) (j + 1) (by omega) (by omega) hij
      omega)
    (List.nodup_range n)

/-- Witness for C6: two identical header lines produce the two names with
the suffix on the second. -/
theorem C6_duplicate_labels_witness :
    keysOf (parse_terms_from_text ["Term: Fall Qtr 2025", "Term: Fall Qtr 2025"]) =
      expectedKeys "Fall Qtr 2025" 2 ∧
    (keysOf (parse_terms_from_text
      ["Term: Fall Qtr 2025", "Term: Fall Qtr 2025"])).Nodup :=
  C6_duplicate_labels ["Term: Fall Qtr 2025", "Term: Fall Qtr 2025"]
    "Fall Qtr 2025" 2 (by decide)
